import Mathlib

/-!
Verification of the resilient MCP tool-call client and the image-payload
extraction logic of the mcp-boilerplate-rust repository's Python scripts.

The client model follows `MCPClient` in
`examples/agent-integration-patterns/langchain/news_content_agent.py`
(the crewai variant `research_content_crew.py` shares the identical retry
loop, minus the health gate).  The extraction model follows
`WorkingMCPImageClient` in `scripts/python/clients/image_generator.py`.
-/

namespace MCP

/-- Outcome of one POST attempt as seen by `call_tool`:
either `httpx.RequestError` was raised, or a response arrived carrying a
status code, its text, and the result of `response.json()`
(`some payload` when the body parses, `none` when `json.JSONDecodeError`
would be raised). -/
inductive Attempt (α : Type) where
  | requestError (msg : String)
  | response (status : Nat) (text : String) (json : Option α)
deriving DecidableEq

/-- Result of a `call_tool` invocation.  Python raises the single exception
type `MCPToolCallError` from three distinct sites, plus `response.json()`
can raise `json.JSONDecodeError`; each raise site (and the success return)
is one constructor, with `errorMessage` below reproducing the exact
message strings. -/
inductive CallResult (α : Type) where
  | success (payload : α)
  | notHealthy (serverName : String)
  | httpError (status : Nat) (text : String)
  | requestFailed (msg : String)
  | allAttemptsFailed (n : Nat)
  | jsonDecodeError
deriving DecidableEq

/-- Message string of the `MCPToolCallError` raised for each failing
result, mirroring the f-strings in `call_tool`; `success` returns
normally and `jsonDecodeError` is a `json.JSONDecodeError`, not an
`MCPToolCallError`, so those map to `none`. -/
def errorMessage {α : Type} : CallResult α → Option String
  | .success _ => none
  | .jsonDecodeError => none
  | .notHealthy name => some ("Server " ++ name ++ " is not healthy")
  | .httpError status text => some ("HTTP " ++ Nat.repr status ++ ": " ++ text)
  | .requestFailed msg => some ("Request failed: " ++ msg)
  | .allAttemptsFailed n => some ("All " ++ Nat.repr n ++ " attempts failed")

/-- The results that correspond to raising `MCPToolCallError` from inside
or after the retry loop (the spec's `CallFailed` kind, as opposed to the
health-gate `Unavailable`). -/
def isCallFailed {α : Type} : CallResult α → Bool
  | .httpError _ _ => true
  | .requestFailed _ => true
  | .allAttemptsFailed _ => true
  | _ => false

/-- The retry loop of `call_tool` (news_content_agent.py lines 105-129,
research_content_crew.py lines 79-103).  `att` gives the outcome of each
POST; `i` is the current value of `attempt`; `rem` the remaining loop
iterations (`rem = maxRetries - i` at every call).  Returns the result,
the number of POSTs performed, and the list of backoff sleeps
(`2 ** attempt`) executed, in order. -/
def callLoop {α : Type} (att : Nat → Attempt α) (maxRetries : Nat) :
    Nat → Nat → CallResult α × Nat × List Nat
  | _, 0 => (.allAttemptsFailed maxRetries, 0, [])
  | i, rem + 1 =>
    match att i with
    | .response status text json =>
      if status = 200 then
        match json with
        | some payload => (.success payload, 1, [])
        | none => (.jsonDecodeError, 1, [])
      else if i = maxRetries - 1 then
        (.httpError status text, 1, [])
      else
        let r := callLoop att maxRetries (i + 1) rem
        (r.1, r.2.1 + 1, 2 ^ i :: r.2.2)
    | .requestError msg =>
      if i = maxRetries - 1 then
        (.requestFailed msg, 1, [])
      else
        let r := callLoop att maxRetries (i + 1) rem
        (r.1, r.2.1 + 1, 2 ^ i :: r.2.2)

/-- The health cache of `MCPClient`: `_healthy` (initially `None`) and
`_last_health_check` (initially `0`). -/
structure HealthState where
  healthy : Option Bool
  lastHealthCheck : Int
deriving DecidableEq

/-- Result of one `health_check()` call: the returned boolean, the cache
state afterwards, and how many network probes (GET on the health path)
were performed (0 or 1). -/
structure HealthCheckRun where
  result : Bool
  state : HealthState
  probes : Nat
deriving DecidableEq

/-- The probe branch of `health_check` (news_content_agent.py lines
87-96): `probe = some status` models a GET that returned `status`,
`probe = none` models a raised exception; either way the outcome is
cached together with the probe time. -/
def probeHealth (now : Int) (probe : Option Nat) : HealthCheckRun :=
  match probe with
  | some status => ⟨status == 200, ⟨some (status == 200), now⟩, 1⟩
  | none => ⟨false, ⟨some false, now⟩, 1⟩

/-- `health_check` (news_content_agent.py lines 79-96): return the cached
status if a previous result exists and was recorded strictly less than 30
time units ago, otherwise probe. -/
def health_check (st : HealthState) (now : Int) (probe : Option Nat) :
    HealthCheckRun :=
  match st.healthy with
  | some b =>
    if now - st.lastHealthCheck < 30 then ⟨b, st, 0⟩
    else probeHealth now probe
  | none => probeHealth now probe

/-- Trace of one `call_tool` invocation: its result, the health-cache
state afterwards, the number of POSTs issued to the tool endpoint (health
probes are counted separately, inside `health_check`), and the backoff
sleeps performed. -/
structure ToolCallRun (α : Type) where
  result : CallResult α
  healthAfter : HealthState
  attempts : Nat
  sleeps : List Nat
deriving DecidableEq

/-- `call_tool` (news_content_agent.py lines 98-129): gate on
`health_check`, then run the retry loop. -/
def call_tool {α : Type} (name : String) (maxRetries : Nat)
    (st : HealthState) (now : Int) (probe : Option Nat)
    (att : Nat → Attempt α) : ToolCallRun α :=
  let hc := health_check st now probe
  if hc.result then
    let r := callLoop att maxRetries 0 maxRetries
    ⟨r.1, hc.state, r.2.1, r.2.2⟩
  else
    ⟨.notHealthy name, hc.state, 0, []⟩

/-- The spec's notion of a transient failure for one attempt: a transport
error or a non-2xx status. -/
def transientFailure {α : Type} : Attempt α → Bool
  | .requestError _ => true
  | .response status _ _ => !(200 ≤ status && status < 300)

/-- An attempt that takes the failure path in the code's loop body:
a transport error or any status other than exactly 200. -/
def failsInCode {α : Type} : Attempt α → Bool
  | .requestError _ => true
  | .response status _ _ => status != 200

/-- The `MCPToolCallError` the code raises when its final attempt fails:
it carries the last attempt's own detail. -/
def lastAttemptResult {α : Type} : Attempt α → CallResult α
  | .requestError msg => .requestFailed msg
  | .response status text _ => .httpError status text

theorem transientFailure_failsInCode {α : Type} (a : Attempt α)
    (h : transientFailure a = true) : failsInCode a = true := by
  cases a with
  | requestError m => rfl
  | response s t j =>
    simp only [transientFailure, Bool.not_eq_true', Bool.and_eq_false_iff,
      decide_eq_false_iff_not, not_le, not_lt] at h
    simp only [failsInCode, ne_eq, bne_iff_ne]
    omega

theorem callLoop_all_fail {α : Type} (att : Nat → Attempt α) (maxR : Nat) :
    ∀ rem i, i + rem = maxR → 1 ≤ rem →
      (∀ j, i ≤ j → j < maxR → failsInCode (att j) = true) →
      callLoop att maxR i rem =
        (lastAttemptResult (att (maxR - 1)), rem,
          (List.range' i (rem - 1)).map (fun j => 2 ^ j)) := by
  intro rem
  induction rem with
  | zero => omega
  | succ rem ih =>
    intro i hinv _ hfail
    have hfi : failsInCode (att i) = true := hfail i (Nat.le_refl i) (by omega)
    cases hatt : att i with
    | requestError m =>
      by_cases hlast : i = maxR - 1
      · have hrem : rem = 0 := by omega
        subst hrem
        subst hlast
        simp [callLoop, hatt, lastAttemptResult]
      · have hrem1 : 1 ≤ rem := by omega
        have hrec := ih (i + 1) (by omega) hrem1
          (fun j h1 h2 => hfail j (by omega) h2)
        simp only [callLoop, hatt, if_neg hlast, hrec]
        have hstep : rem + 1 - 1 = (rem - 1) + 1 := by omega
        rw [hstep, List.range'_succ]
        simp
    | response s t j =>
      rw [hatt] at hfi
      have hs : ¬(s = 200) := by
        simp only [failsInCode, bne_iff_ne, ne_eq] at hfi
        exact hfi
      by_cases hlast : i = maxR - 1
      · have hrem : rem = 0 := by omega
        subst hrem
        subst hlast
        simp [callLoop, hatt, hs, lastAttemptResult]
      · have hrem1 : 1 ≤ rem := by omega
        have hrec := ih (i + 1) (by omega) hrem1
          (fun j h1 h2 => hfail j (by omega) h2)
        simp only [callLoop, hatt, if_neg hs, if_neg hlast, hrec]
        have hstep : rem + 1 - 1 = (rem - 1) + 1 := by omega
        rw [hstep, List.range'_succ]
        simp

theorem callLoop_first200 {α : Type} (att : Nat → Attempt α) (maxR : Nat)
    (txt : String) (jv : Option α) :
    ∀ rem i0, i0 + rem = maxR → ∀ i, i0 ≤ i → i < maxR →
      (∀ j, i0 ≤ j → j < i → failsInCode (att j) = true) →
      att i = .response 200 txt jv →
      callLoop att maxR i0 rem =
        ((match jv with
          | some p => CallResult.success p
          | none => CallResult.jsonDecodeError),
         i - i0 + 1, (List.range' i0 (i - i0)).map (fun j => 2 ^ j)) := by
  intro rem
  induction rem with
  | zero => intro i0 hinv i h1 h2 _ _; omega
  | succ rem ih =>
    intro i0 hinv i hle hlt hfail hatt
    by_cases heq : i0 = i
    · subst heq
      have h0 : i0 - i0 = 0 := by omega
      cases jv with
      | some p => simp [callLoop, hatt, h0]
      | none => simp [callLoop, hatt, h0]
    · have hi0 : i0 < i := by omega
      have hfi : failsInCode (att i0) = true :=
        hfail i0 (Nat.le_refl i0) hi0
      have hlast : ¬(i0 = maxR - 1) := by omega
      have hrec := ih (i0 + 1) (by omega) i (by omega) hlt
        (fun j ha hb => hfail j (by omega) hb) hatt
      have hsub : i - i0 = (i - (i0 + 1)) + 1 := by omega
      cases hatt0 : att i0 with
      | requestError m =>
        simp only [callLoop, hatt0, if_neg hlast, hrec]
        rw [hsub, List.range'_succ]
        simp
      | response s t j =>
        rw [hatt0] at hfi
        have hs : ¬(s = 200) := by
          simp only [failsInCode, bne_iff_ne, ne_eq] at hfi
          exact hfi
        simp only [callLoop, hatt0, if_neg hs, if_neg hlast, hrec]
        rw [hsub, List.range'_succ]
        simp

theorem callLoop_attempts_pos {α : Type} (att : Nat → Attempt α)
    (maxR rem i : Nat) (hrem : 1 ≤ rem) :
    1 ≤ (callLoop att maxR i rem).2.1 := by
  obtain ⟨k, rfl⟩ : ∃ k, rem = k + 1 := ⟨rem - 1, by omega⟩
  cases hatt : att i with
  | requestError m =>
    by_cases hlast : i = maxR - 1
    · subst hlast
      simp [callLoop, hatt]
    · simp [callLoop, hatt, hlast]
  | response s t j =>
    by_cases hs : s = 200
    · subst hs
      cases j <;> simp [callLoop, hatt]
    · by_cases hlast : i = maxR - 1
      · subst hlast
        simp [callLoop, hatt, hs]
      · simp [callLoop, hatt, hs, hlast]

theorem callLoop_sleeps_shape {α : Type} (att : Nat → Attempt α) (maxR : Nat) :
    ∀ rem i, i + rem = maxR →
      ∃ k, (callLoop att maxR i rem).2.2 =
          (List.range' i k).map (fun j => 2 ^ j) ∧
        (callLoop att maxR i rem).2.2.length =
          (callLoop att maxR i rem).2.1 - 1 := by
  intro rem
  induction rem with
  | zero => intro i _; exact ⟨0, by simp [callLoop]⟩
  | succ rem ih =>
    intro i hinv
    cases hatt : att i with
    | requestError m =>
      by_cases hlast : i = maxR - 1
      · subst hlast
        exact ⟨0, by simp [callLoop, hatt]⟩
      · have hrem : 1 ≤ rem := by omega
        obtain ⟨k, hk, hlen⟩ := ih (i + 1) (by omega)
        have hpos := callLoop_attempts_pos att maxR rem (i + 1) hrem
        refine ⟨k + 1, ?_, ?_⟩
        · simp only [callLoop, hatt, if_neg hlast]
          rw [List.range'_succ]
          simp [hk]
        · simp only [callLoop, hatt, if_neg hlast]
          simp only [List.length_cons, hlen]
          omega
    | response s t j =>
      by_cases hs : s = 200
      · subst hs
        cases j <;> exact ⟨0, by simp [callLoop, hatt]⟩
      · by_cases hlast : i = maxR - 1
        · subst hlast
          exact ⟨0, by simp [callLoop, hatt, hs]⟩
        · have hrem : 1 ≤ rem := by omega
          obtain ⟨k, hk, hlen⟩ := ih (i + 1) (by omega)
          have hpos := callLoop_attempts_pos att maxR rem (i + 1) hrem
          refine ⟨k + 1, ?_, ?_⟩
          · simp only [callLoop, hatt, if_neg hs, if_neg hlast]
            rw [List.range'_succ]
            simp [hk]
          · simp only [callLoop, hatt, if_neg hs, if_neg hlast]
            simp only [List.length_cons, hlen]
            omega

theorem callLoop_ne_allAttemptsFailed {α : Type} (att : Nat → Attempt α)
    (maxR : Nat) :
    ∀ rem i, i + rem = maxR → 1 ≤ rem → ∀ n,
      (callLoop att maxR i rem).1 ≠ .allAttemptsFailed n := by
  intro rem
  induction rem with
  | zero => omega
  | succ rem ih =>
    intro i hinv _ n
    cases hatt : att i with
    | requestError m =>
      by_cases hlast : i = maxR - 1
      · subst hlast
        simp [callLoop, hatt]
      · have hrem : 1 ≤ rem := by omega
        have := ih (i + 1) (by omega) hrem n
        simp only [callLoop, hatt, if_neg hlast]
        exact this
    | response s t j =>
      by_cases hs : s = 200
      · subst hs
        cases j <;> simp [callLoop, hatt]
      · by_cases hlast : i = maxR - 1
        · subst hlast
          simp [callLoop, hatt, hs]
        · have hrem : 1 ≤ rem := by omega
          have := ih (i + 1) (by omega) hrem n
          simp only [callLoop, hatt, if_neg hs, if_neg hlast]
          exact this

/-- C1: for every `max_retries = N ≥ 1`, if the endpoint is healthy and
every attempt's POST yields a non-2xx status or a transport error, then
`call_tool` performs exactly N network attempts and terminates with a
CallFailed failure (an `MCPToolCallError`), not a success. -/
theorem c1_all_failures_exhaust_attempts {α : Type} (name : String)
    (N : Nat) (st : HealthState) (now : Int) (probe : Option Nat)
    (att : Nat → Attempt α)
    (hh : (health_check st now probe).result = true) (hN : 1 ≤ N)
    (hfail : ∀ i, i < N → transientFailure (att i) = true) :
    (call_tool name N st now probe att).attempts = N ∧
      isCallFailed (call_tool name N st now probe att).result = true := by
  have hloop := callLoop_all_fail att N N 0 (by omega) hN
    (fun j _ hj => transientFailure_failsInCode _ (hfail j hj))
  constructor
  · simp [call_tool, hh, hloop]
  · simp only [call_tool, hh, if_true, hloop]
    cases att (N - 1) with
    | requestError m => simp [lastAttemptResult, isCallFailed]
    | response s t j => simp [lastAttemptResult, isCallFailed]

theorem c1_witness :
    (health_check ⟨none, 0⟩ 0 (some 200)).result = true ∧
      (call_tool "news-data-server" 1 ⟨none, 0⟩ 0 (some 200)
        (fun _ => Attempt.response 500 "oops" (none : Option String))).attempts
        = 1 ∧
      isCallFailed (call_tool "news-data-server" 1 ⟨none, 0⟩ 0 (some 200)
        (fun _ => Attempt.response 500 "oops"
          (none : Option String))).result = true := by
  refine ⟨by decide, ?_⟩
  exact c1_all_failures_exhaust_attempts "news-data-server" 1 ⟨none, 0⟩ 0
    (some 200) (fun _ => Attempt.response 500 "oops" (none : Option String))
    (by decide) (by decide) (by decide)

/-- C2 (counterexample): with `max_retries = 2`, a transient failure
followed by a 201 response (2xx) carrying a parseable JSON body does NOT
yield a success: the code accepts only status 200, so the claim as stated
is false. -/
theorem c2_counterexample :
    (200 ≤ 201 ∧ 201 < 300) ∧
      (call_tool "srv" 2 ⟨none, 0⟩ 0 (some 200)
        (fun j => if j = 0 then Attempt.requestError "reset"
          else Attempt.response 201 "ok-body" (some "payload"))).result =
        CallResult.httpError 201 "ok-body" ∧
      isCallFailed (call_tool "srv" 2 ⟨none, 0⟩ 0 (some 200)
        (fun j => if j = 0 then Attempt.requestError "reset"
          else Attempt.response 201 "ok-body" (some "payload"))).result
        = true := by
  decide

/-- C2 (amended): with a healthy endpoint, if attempts before index `i`
fail transiently and attempt `i` returns status 200 with a parseable JSON
body, `call_tool` returns that payload as a success after exactly `i + 1`
attempts — in particular, a single transient failure followed by a 200
response means exactly 2 attempts and a success. -/
theorem c2_amended_first_200_succeeds {α : Type} (name : String) (N : Nat)
    (st : HealthState) (now : Int) (probe : Option Nat)
    (att : Nat → Attempt α) (i : Nat) (txt : String) (p : α)
    (hh : (health_check st now probe).result = true) (hi : i < N)
    (hfail : ∀ j, j < i → transientFailure (att j) = true)
    (hatt : att i = .response 200 txt (some p)) :
    (call_tool name N st now probe att).result = .success p ∧
      (call_tool name N st now probe att).attempts = i + 1 := by
  have hloop := callLoop_first200 att N txt (some p) N 0 (by omega) i
    (Nat.zero_le i) hi
    (fun j _ hj => transientFailure_failsInCode _ (hfail j hj)) hatt
  constructor <;> simp [call_tool, hh, hloop]

theorem c2_witness :
    (health_check ⟨none, 0⟩ 0 (some 200)).result = true ∧
      (call_tool "srv" 2 ⟨none, 0⟩ 0 (some 200)
        (fun j => if j = 0 then Attempt.requestError "reset"
          else Attempt.response 200 "body" (some "payload"))).result =
        CallResult.success "payload" ∧
      (call_tool "srv" 2 ⟨none, 0⟩ 0 (some 200)
        (fun j => if j = 0 then Attempt.requestError "reset"
          else Attempt.response 200 "body" (some "payload"))).attempts
        = 2 := by
  refine ⟨by decide, ?_⟩
  exact c2_amended_first_200_succeeds "srv" 2 ⟨none, 0⟩ 0 (some 200)
    (fun j => if j = 0 then Attempt.requestError "reset"
      else Attempt.response 200 "body" (some "payload")) 1 "body" "payload"
    (by decide) (by decide) (by decide) (by decide)

/-- C3: whenever `health_check()` returns false, `call_tool` raises the
"is not healthy" error immediately: zero POSTs to the tool endpoint and
no backoff sleeps. -/
theorem c3_unhealthy_blocks_call {α : Type} (name : String) (N : Nat)
    (st : HealthState) (now : Int) (probe : Option Nat)
    (att : Nat → Attempt α)
    (hh : (health_check st now probe).result = false) :
    (call_tool name N st now probe att).result = .notHealthy name ∧
      (call_tool name N st now probe att).attempts = 0 ∧
      (call_tool name N st now probe att).sleeps = [] ∧
      errorMessage (call_tool name N st now probe att).result =
        some ("Server " ++ name ++ " is not healthy") := by
  refine ⟨?_, ?_, ?_, ?_⟩ <;> simp [call_tool, hh, errorMessage]

theorem c3_witness :
    (health_check ⟨some false, 0⟩ 10 (some 200)).result = false ∧
      (call_tool "database-server" 3 ⟨some false, 0⟩ 10 (some 200)
        (fun _ => Attempt.response 200 "body"
          (some "payload"))).result = .notHealthy "database-server" ∧
      (call_tool "database-server" 3 ⟨some false, 0⟩ 10 (some 200)
        (fun _ => Attempt.response 200 "body" (some "payload"))).attempts
        = 0 := by
  refine ⟨by decide, ?_⟩
  have h := c3_unhealthy_blocks_call "database-server" 3 ⟨some false, 0⟩ 10
    (some 200)
    (fun _ => Attempt.response 200 "body" (some "payload")) (by decide)
  exact ⟨h.1, h.2.1⟩

/-- C4: in every run of `call_tool`, the backoff sleeps are exactly
`2 ^ 0, 2 ^ 1, ...` in order (one per non-final failing attempt, so their
count is one less than the attempt count), hence strictly increasing. -/
theorem c4_backoff_strictly_increasing {α : Type} (name : String)
    (N : Nat) (st : HealthState) (now : Int) (probe : Option Nat)
    (att : Nat → Attempt α) :
    ∃ k, (call_tool name N st now probe att).sleeps =
        (List.range k).map (fun i => 2 ^ i) ∧
      List.Pairwise (· < ·) (call_tool name N st now probe att).sleeps ∧
      (call_tool name N st now probe att).sleeps.length =
        (call_tool name N st now probe att).attempts - 1 := by
  by_cases hh : (health_check st now probe).result = true
  · obtain ⟨k, hk, hlen⟩ := callLoop_sleeps_shape att N N 0 (by omega)
    have hp : List.Pairwise (· < ·)
        ((List.range' 0 k).map (fun j => (2 : Nat) ^ j)) := by
      rw [← List.range_eq_range']
      exact List.Pairwise.map _
        (fun a b hab => Nat.pow_lt_pow_right (by omega) hab)
        (List.pairwise_lt_range k)
    refine ⟨k, ?_, ?_, ?_⟩
    · simp [call_tool, hh, hk, List.range_eq_range']
    · simp only [call_tool, hh, if_true]
      simpa [hk] using hp
    · simp [call_tool, hh, hlen]
  · rw [Bool.not_eq_true] at hh
    exact ⟨0, by simp [call_tool, hh], by simp [call_tool, hh],
      by simp [call_tool, hh]⟩

/-- C5: `health_check` returns the cached status with no probe when a
previous result exists and is strictly fresher than 30 time units;
otherwise it probes, and a failed probe returns false, caching false at
the probe time and never raising.  Two calls within 30 units on an
unreachable endpoint probe exactly once; a later call after more than 30
units probes again. -/
theorem c5_health_check_cache :
    (∀ (st : HealthState) (now : Int) (probe : Option Nat) (b : Bool),
        st.healthy = some b → now - st.lastHealthCheck < 30 →
        health_check st now probe = ⟨b, st, 0⟩) ∧
    (∀ (st : HealthState) (now : Int),
        st.healthy = none ∨ 30 ≤ now - st.lastHealthCheck →
        health_check st now none = ⟨false, ⟨some false, now⟩, 1⟩) ∧
    (∀ t1 t2 t3 : Int, t2 - t1 < 30 → 30 < t3 - t1 →
        (health_check ⟨none, 0⟩ t1 none).probes = 1 ∧
        (health_check ⟨none, 0⟩ t1 none).result = false ∧
        (health_check (health_check ⟨none, 0⟩ t1 none).state t2 none).probes
          = 0 ∧
        (health_check (health_check ⟨none, 0⟩ t1 none).state t2 none).result
          = false ∧
        (health_check
          (health_check (health_check ⟨none, 0⟩ t1 none).state t2
            none).state t3 none).probes = 1) := by
  refine ⟨?_, ?_, ?_⟩
  · intro st now probe b hb hlt
    simp [health_check, hb, hlt]
  · intro st now h
    rcases h with h | h
    · simp [health_check, h, probeHealth]
    · cases hb : st.healthy with
      | none => simp [health_check, hb, probeHealth]
      | some b =>
        have : ¬(now - st.lastHealthCheck < 30) := by omega
        simp [health_check, hb, this, probeHealth]
  · intro t1 t2 t3 h12 h13
    have h3 : ¬(t3 - t1 < 30) := by omega
    refine ⟨?_, ?_, ?_, ?_, ?_⟩ <;>
      simp [health_check, probeHealth, h12, h3]

theorem c5_witness :
    (health_check ⟨none, 0⟩ 100 none).probes = 1 ∧
      (health_check ⟨none, 0⟩ 100 none).result = false ∧
      (health_check (health_check ⟨none, 0⟩ 100 none).state 110
        none).probes = 0 ∧
      (health_check (health_check ⟨none, 0⟩ 100 none).state 110
        none).result = false ∧
      (health_check (health_check (health_check ⟨none, 0⟩ 100 none).state
        110 none).state 131 none).probes = 1 :=
  c5_health_check_cache.2.2 100 110 131 (by decide) (by decide)

/-- C6 (counterexample): with `max_retries = 1` and a single failing
attempt, the terminal `MCPToolCallError` carries the last attempt's
detail ("HTTP 500: boom"), not "all 1 attempts failed": the
post-loop exhaustion message is unreachable for N ≥ 1. -/
theorem c6_counterexample :
    (call_tool "srv" 1 ⟨none, 0⟩ 0 (some 200)
        (fun _ => Attempt.response 500 "boom" (none : Option String))).result
      = CallResult.httpError 500 "boom" ∧
      errorMessage (call_tool "srv" 1 ⟨none, 0⟩ 0 (some 200)
        (fun _ => Attempt.response 500 "boom"
          (none : Option String))).result = some "HTTP 500: boom" ∧
      (call_tool "srv" 1 ⟨none, 0⟩ 0 (some 200)
        (fun _ => Attempt.response 500 "boom" (none : Option String))).result
        ≠ CallResult.allAttemptsFailed 1 ∧
      errorMessage (call_tool "srv" 1 ⟨none, 0⟩ 0 (some 200)
        (fun _ => Attempt.response 500 "boom"
          (none : Option String))).result ≠ some "All 1 attempts failed" ∧
      errorMessage (call_tool "srv" 1 ⟨none, 0⟩ 0 (some 200)
        (fun _ => Attempt.response 500 "boom"
          (none : Option String))).result ≠ some "all 1 attempts failed" := by
  decide

/-- C6 (amended): for every `max_retries = N ≥ 1`, exhausting all N
attempts without a success terminates with the LAST attempt's own error
detail (its HTTP status and text, or its request-error message); the
"All N attempts failed" message after the loop is never reached for
N ≥ 1. -/
theorem c6_amended_exhaustion_carries_last_detail {α : Type}
    (name : String) (N : Nat) (st : HealthState) (now : Int)
    (probe : Option Nat) (att : Nat → Attempt α)
    (hh : (health_check st now probe).result = true) (hN : 1 ≤ N)
    (hfail : ∀ i, i < N → failsInCode (att i) = true) :
    (call_tool name N st now probe att).result =
      lastAttemptResult (att (N - 1)) := by
  have hloop := callLoop_all_fail att N N 0 (by omega) hN
    (fun j _ hj => hfail j hj)
  simp [call_tool, hh, hloop]

theorem c6_witness :
    (health_check ⟨none, 0⟩ 0 (some 200)).result = true ∧
      (call_tool "srv" 2 ⟨none, 0⟩ 0 (some 200)
        (fun j => if j = 0 then Attempt.requestError "timeout"
          else Attempt.response 503 "unavailable"
            (none : Option String))).result =
        CallResult.httpError 503 "unavailable" := by
  refine ⟨by decide, ?_⟩
  exact c6_amended_exhaustion_carries_last_detail "srv" 2 ⟨none, 0⟩ 0
    (some 200)
    (fun j => if j = 0 then Attempt.requestError "timeout"
      else Attempt.response 503 "unavailable" (none : Option String))
    (by decide) (by decide) (by decide)

/-- C7 (counterexample): a 201 response (2xx) with an unparseable body is
retried like any other non-200 response — with `max_retries = 2` a second
attempt happens after it — so the claim that a malformed 2xx body is
never retried is false as stated. -/
theorem c7_counterexample :
    (200 ≤ 201 ∧ 201 < 300) ∧
      ((fun j => if j = 0
          then Attempt.response 201 "not json" (none : Option String)
          else Attempt.requestError "reset") 0 =
        Attempt.response 201 "not json" (none : Option String)) ∧
      (call_tool "srv" 2 ⟨none, 0⟩ 0 (some 200)
        (fun j => if j = 0
          then Attempt.response 201 "not json" (none : Option String)
          else Attempt.requestError "reset")).attempts = 2 := by
  decide

/-- C7 (amended): a 200 response whose body is not valid JSON terminates
the retry loop immediately — no further attempt after it — and the call
ends with the propagated JSON decode error, which is distinct from the
`MCPToolCallError` CallFailed outcomes (it carries no MCPToolCallError
message at all). -/
theorem c7_amended_200_bad_json_stops_loop {α : Type} (name : String)
    (N : Nat) (st : HealthState) (now : Int) (probe : Option Nat)
    (att : Nat → Attempt α) (i : Nat) (txt : String)
    (hh : (health_check st now probe).result = true) (hi : i < N)
    (hfail : ∀ j, j < i → transientFailure (att j) = true)
    (hatt : att i = .response 200 txt none) :
    (call_tool name N st now probe att).result = .jsonDecodeError ∧
      (call_tool name N st now probe att).attempts = i + 1 ∧
      isCallFailed (call_tool name N st now probe att).result = false ∧
      errorMessage (call_tool name N st now probe att).result = none := by
  have hloop := callLoop_first200 att N txt none N 0 (by omega) i
    (Nat.zero_le i) hi
    (fun j _ hj => transientFailure_failsInCode _ (hfail j hj)) hatt
  refine ⟨?_, ?_, ?_, ?_⟩ <;>
    simp [call_tool, hh, hloop, isCallFailed, errorMessage]

theorem c7_witness :
    (health_check ⟨none, 0⟩ 0 (some 200)).result = true ∧
      (call_tool "srv" 3 ⟨none, 0⟩ 0 (some 200)
        (fun _ => Attempt.response 200 "not json"
          (none : Option String))).result = CallResult.jsonDecodeError ∧
      (call_tool "srv" 3 ⟨none, 0⟩ 0 (some 200)
        (fun _ => Attempt.response 200 "not json"
          (none : Option String))).attempts = 1 := by
  refine ⟨by decide, ?_⟩
  have h := c7_amended_200_bad_json_stops_loop "srv" 3 ⟨none, 0⟩ 0
    (some 200)
    (fun _ => Attempt.response 200 "not json" (none : Option String)) 0
    "not json" (by decide) (by decide) (by decide) (by decide)
  exact ⟨h.1, h.2.1⟩

/-- C10: with `max_retries = 0` and a healthy endpoint, the retry loop
body never executes: zero POSTs, and the call fails with
"All 0 attempts failed"; and for every `max_retries = N ≥ 1` the
post-loop exhaustion result is never produced (the last failing attempt
raises from inside the loop). -/
theorem c10_exhaustion_message_only_for_zero_retries {α : Type}
    (name : String) (st : HealthState) (now : Int) (probe : Option Nat)
    (att : Nat → Attempt α)
    (hh : (health_check st now probe).result = true) :
    ((call_tool name 0 st now probe att).result =
        CallResult.allAttemptsFailed 0 ∧
      (call_tool name 0 st now probe att).attempts = 0 ∧
      errorMessage (call_tool name 0 st now probe att).result =
        some "All 0 attempts failed") ∧
    (∀ N, 1 ≤ N → ∀ n, (call_tool name N st now probe att).result ≠
        CallResult.allAttemptsFailed n) := by
  constructor
  · refine ⟨?_, ?_, ?_⟩
    · simp [call_tool, hh, callLoop]
    · simp [call_tool, hh, callLoop]
    · simp [call_tool, hh, callLoop, errorMessage]
      rfl
  · intro N hN n
    have h := callLoop_ne_allAttemptsFailed att N N 0 (by omega) hN n
    simpa [call_tool, hh] using h

theorem c10_witness :
    (call_tool "srv" 0 ⟨none, 0⟩ 0 (some 200)
        (fun _ => Attempt.requestError "x" : Nat → Attempt String)).result
      = CallResult.allAttemptsFailed 0 ∧
      (call_tool "srv" 3 ⟨none, 0⟩ 0 (some 200)
        (fun _ => Attempt.requestError "x" : Nat → Attempt String)).result
        ≠ CallResult.allAttemptsFailed 3 := by
  constructor
  · exact (c10_exhaustion_message_only_for_zero_retries "srv" ⟨none, 0⟩ 0
      (some 200) (fun _ => Attempt.requestError "x") (by decide)).1.1
  · exact (c10_exhaustion_message_only_for_zero_retries "srv" ⟨none, 0⟩ 0
      (some 200) (fun _ => Attempt.requestError "x") (by decide)).2 3
      (by decide) 3

/-!
Model of the image-payload extraction in
`scripts/python/clients/image_generator.py`
(`WorkingMCPImageClient.extract_image_urls`, `save_data_url_image`, and
the body of `process_response_and_save` from the data-URL search onward,
lines 171-201 and 273-321).  Strings are modelled as `List Char`; the
two regex scans are implemented with Python `re.findall` semantics
(leftmost match, greedy quantifiers, scanning resumes after each match).
-/

/-- A character of the base64 alphabet proper (`[A-Za-z0-9+/]`). -/
def isB64BodyChar (c : Char) : Bool :=
  ('A' ≤ c && c ≤ 'Z') || ('a' ≤ c && c ≤ 'z') || ('0' ≤ c && c ≤ '9') ||
    c == '+' || c == '/'

/-- A character of the class `[A-Za-z0-9+/=]` used by the data-URL
payload part of the regex. -/
def isB64UrlChar (c : Char) : Bool := isB64BodyChar c || c == '='

/-- Value of a base64 alphabet character. -/
def b64Val (c : Char) : Option Nat :=
  if 'A' ≤ c ∧ c ≤ 'Z' then some (c.toNat - 'A'.toNat)
  else if 'a' ≤ c ∧ c ≤ 'z' then some (c.toNat - 'a'.toNat + 26)
  else if '0' ≤ c ∧ c ≤ '9' then some (c.toNat - '0'.toNat + 52)
  else if c = '+' then some 62
  else if c = '/' then some 63
  else none

/-- `base64.b64decode` on canonically padded input: quads of alphabet
characters, with an optional final quad carrying one or two `=` pads;
`none` models a raised `binascii.Error` (and any non-canonical input, on
which this development never relies: every use below feeds it strings of
alphabet characters with trailing padding only). -/
def b64decode : List Char → Option (List Nat)
  | [] => some []
  | c1 :: c2 :: c3 :: c4 :: rest =>
    match b64Val c1, b64Val c2 with
    | some v1, some v2 =>
      if c3 = '=' then
        if c4 = '=' ∧ rest = [] then some [v1 * 4 + v2 / 16] else none
      else
        match b64Val c3 with
        | some v3 =>
          if c4 = '=' then
            if rest = [] then
              some [v1 * 4 + v2 / 16, v2 % 16 * 16 + v3 / 4]
            else none
          else
            match b64Val c4 with
            | some v4 =>
              match b64decode rest with
              | some bs =>
                some ((v1 * 4 + v2 / 16) :: (v2 % 16 * 16 + v3 / 4) ::
                  (v3 % 4 * 64 + v4) :: bs)
              | none => none
            | none => none
        | none => none
    | _, _ => none
  | _ => none

/-- Strip a literal prefix, returning the remainder on success. -/
def stripPre : List Char → List Char → Option (List Char)
  | [], s => some s
  | _ :: _, [] => none
  | p :: ps, c :: cs => if c = p then stripPre ps cs else none

/-- The literal head of the data-URL regex
`data:image/[^;]+;base64,[A-Za-z0-9+/=]+`. -/
def dataImageTag : List Char := "data:image/".data

/-- The literal middle part `;base64,` of the data-URL regex. -/
def base64Tag : List Char := ";base64,".data

/-- Leftmost-greedy match of the data-URL regex at the START of `s`:
the literal `data:image/`, a nonempty maximal run of non-`;` characters
followed by the literal `;base64,`, then a nonempty maximal run of
`[A-Za-z0-9+/=]` characters.  Returns the matched text and the rest of
the input. -/
def matchDataUrlAt (s : List Char) : Option (List Char × List Char) :=
  match stripPre dataImageTag s with
  | none => none
  | some s1 =>
    let run := s1.takeWhile (fun c => !(c == ';'))
    if run.isEmpty then none
    else
      match stripPre base64Tag (s1.dropWhile (fun c => !(c == ';'))) with
      | none => none
      | some s3 =>
        let payload := s3.takeWhile isB64UrlChar
        if payload.isEmpty then none
        else some (dataImageTag ++ run ++ base64Tag ++ payload,
          s3.dropWhile isB64UrlChar)

/-- Leftmost-greedy match of the fallback regex
`[A-Za-z0-9+/]{100,}={0,2}` at the START of `s`: a maximal run of at
least 100 alphabet characters, then up to two `=`. -/
def matchBase64At (s : List Char) : Option (List Char × List Char) :=
  let run := s.takeWhile isB64BodyChar
  if run.length < 100 then none
  else
    match s.dropWhile isB64BodyChar with
    | '=' :: '=' :: rest2 => some (run ++ ['=', '='], rest2)
    | '=' :: rest2 => some (run ++ ['='], rest2)
    | rest => some (run, rest)

/-- `re.findall` driver: scan left to right; on a match, emit it and
resume after its end, otherwise advance one character.  `fuel` bounds the
recursion (every step consumes at least one character, so `s.length`
fuel suffices). -/
def scanAll (step : List Char → Option (List Char × List Char)) :
    Nat → List Char → List (List Char)
  | 0, _ => []
  | _ + 1, [] => []
  | fuel + 1, c :: rest =>
    match step (c :: rest) with
    | some (m, after) => m :: scanAll step fuel after
    | none => scanAll step fuel rest

/-- `extract_image_urls` (image_generator.py lines 171-176):
`re.findall(r'data:image/[^;]+;base64,[A-Za-z0-9+/=]+', json_text)`. -/
def extract_image_urls (s : List Char) : List (List Char) :=
  scanAll matchDataUrlAt s.length s

/-- All matches of the fallback pattern
`r'[A-Za-z0-9+/]{100,}={0,2}'` (image_generator.py line 304-305). -/
def findAllBase64 (s : List Char) : List (List Char) :=
  scanAll matchBase64At s.length s

/-- `save_data_url_image` (image_generator.py lines 178-201), up to the
decoded bytes: take `data_url.split(',')[1]` when a comma is present
(the segment between the first and second commas), else the whole
string, and base64-decode it; `none` models the caught exception path
(returns False, nothing saved). -/
def save_data_url_image (u : List Char) : Option (List Nat) :=
  let b64 :=
    if ',' ∈ u then
      ((u.dropWhile (fun c => !(c == ','))).drop 1).takeWhile
        (fun c => !(c == ','))
    else u
  b64decode b64

/-- One candidate of the fallback loop (image_generator.py lines
309-321): decode, keep only blobs strictly larger than 1000 bytes;
decode failure is swallowed by `continue`. -/
def fallbackDecode (b : List Char) : Option (List Nat) :=
  match b64decode b with
  | some bytes => if 1000 < bytes.length then some bytes else none
  | none => none

/-- The media-extraction core of `process_response_and_save`
(image_generator.py lines 273-321) applied to the response's JSON text:
if the data-URL scan finds matches, each is saved via
`save_data_url_image` (failures skipped); otherwise the fallback scans
for standalone base64 strings and saves at most the FIRST THREE
candidates that decode to more than 1000 bytes.  The result is the list
of decoded blobs saved, in encounter order. -/
def process_response_media (s : List Char) : List (List Nat) :=
  let dataUrls := extract_image_urls s
  if dataUrls.isEmpty then
    ((findAllBase64 s).take 3).filterMap fallbackDecode
  else
    dataUrls.filterMap save_data_url_image

example : b64decode "QUJD".data = some [65, 66, 67] := by decide

example : b64decode "QQ==".data = some [65] := by decide

example : extract_image_urls "x data:image/png;base64,QUJD y".data =
    ["data:image/png;base64,QUJD".data] := by decide

example :
    process_response_media "x data:image/png;base64,QUJD y".data =
      [[65, 66, 67]] := by decide

example : extract_image_urls "data:text/plain;base64,QUJD".data = [] := by
  decide

theorem b64Val_isB64BodyChar (c : Char) (v : Nat) (h : b64Val c = some v) :
    isB64BodyChar c = true := by
  unfold b64Val at h
  split_ifs at h with h1 h2 h3 h4 h5
  · simp [isB64BodyChar, h1.1, h1.2]
  · simp [isB64BodyChar, h2.1, h2.2]
  · simp [isB64BodyChar, h3.1, h3.2]
  · subst h4; decide
  · subst h5; decide

theorem b64decode_structure : ∀ (s : List Char) (bs : List Nat),
    b64decode s = some bs →
    ∃ body pads, s = body ++ pads ∧
      (∀ c ∈ body, isB64BodyChar c = true) ∧
      (pads = [] ∨ pads = ['='] ∨ pads = ['=', '=']) ∧
      s.length % 4 = 0 ∧ 4 * bs.length ≤ 3 * s.length
  | [], bs, h => by
    simp only [b64decode, Option.some.injEq] at h
    subst h
    exact ⟨[], [], rfl, by simp, Or.inl rfl, by simp, by simp⟩
  | [c1], bs, h => by simp [b64decode] at h
  | [c1, c2], bs, h => by simp [b64decode] at h
  | [c1, c2, c3], bs, h => by simp [b64decode] at h
  | c1 :: c2 :: c3 :: c4 :: rest, bs, h => by
    simp only [b64decode] at h
    cases hv1 : b64Val c1 with
    | none => rw [hv1] at h; simp at h
    | some v1 =>
    cases hv2 : b64Val c2 with
    | none => rw [hv1, hv2] at h; simp at h
    | some v2 =>
    rw [hv1, hv2] at h
    simp only at h
    by_cases hc3 : c3 = '='
    · rw [if_pos hc3] at h
      by_cases hpad : c4 = '=' ∧ rest = []
      · rw [if_pos hpad] at h
        simp only [Option.some.injEq] at h
        subst hc3
        obtain ⟨hc4, hrest⟩ := hpad
        subst hc4; subst hrest
        refine ⟨[c1, c2], ['=', '='], by simp, ?_, Or.inr (Or.inr rfl), by simp, ?_⟩
        · intro c hc
          simp only [List.mem_cons, List.not_mem_nil, or_false] at hc
          rcases hc with rfl | rfl
          · exact b64Val_isB64BodyChar c v1 hv1
          · exact b64Val_isB64BodyChar c v2 hv2
        · subst h; simp
      · rw [if_neg hpad] at h; simp at h
    · rw [if_neg hc3] at h
      cases hv3 : b64Val c3 with
      | none => rw [hv3] at h; simp at h
      | some v3 =>
      rw [hv3] at h
      simp only at h
      by_cases hc4 : c4 = '='
      · rw [if_pos hc4] at h
        by_cases hrest : rest = []
        · rw [if_pos hrest] at h
          simp only [Option.some.injEq] at h
          subst hc4; subst hrest
          refine ⟨[c1, c2, c3], ['='], by simp, ?_, Or.inr (Or.inl rfl), by simp, ?_⟩
          · intro c hc
            simp only [List.mem_cons, List.not_mem_nil, or_false] at hc
            rcases hc with rfl | rfl | rfl
            · exact b64Val_isB64BodyChar c v1 hv1
            · exact b64Val_isB64BodyChar c v2 hv2
            · exact b64Val_isB64BodyChar c v3 hv3
          · subst h; simp
        · rw [if_neg hrest] at h; simp at h
      · rw [if_neg hc4] at h
        cases hv4 : b64Val c4 with
        | none => rw [hv4] at h; simp at h
        | some v4 =>
        rw [hv4] at h
        simp only at h
        cases hrest : b64decode rest with
        | none => rw [hrest] at h; simp at h
        | some bs' =>
        rw [hrest] at h
        simp only [Option.some.injEq] at h
        obtain ⟨body', pads', hsplit, hbody, hpads, hlen4, hsize⟩ :=
          b64decode_structure rest bs' hrest
        refine ⟨c1 :: c2 :: c3 :: c4 :: body', pads', ?_, ?_, hpads, ?_, ?_⟩
        · simp [hsplit]
        · intro c hc
          simp only [List.mem_cons] at hc
          rcases hc with rfl | rfl | rfl | rfl | h1
          · exact b64Val_isB64BodyChar c v1 hv1
          · exact b64Val_isB64BodyChar c v2 hv2
          · exact b64Val_isB64BodyChar c v3 hv3
          · exact b64Val_isB64BodyChar c v4 hv4
          · exact hbody c h1
        · simp only [List.length_cons]
          omega
        · subst h
          simp only [List.length_cons]
          omega

theorem stripPre_some : ∀ (p s r : List Char), stripPre p s = some r →
    s = p ++ r
  | [], s, r, h => by simpa [stripPre] using h
  | p :: ps, [], r, h => by simp [stripPre] at h
  | p :: ps, c :: cs, r, h => by
    simp only [stripPre] at h
    split_ifs at h with hc
    subst hc
    simpa using stripPre_some ps cs r h

theorem stripPre_append : ∀ (p r : List Char), stripPre p (p ++ r) = some r
  | [], r => rfl
  | p :: ps, r => by simp [stripPre, stripPre_append ps r]

theorem takeWhile_append_all (p : Char → Bool) :
    ∀ (xs ys : List Char), (∀ a ∈ xs, p a = true) →
      (xs ++ ys).takeWhile p = xs ++ ys.takeWhile p
  | [], ys, _ => rfl
  | x :: xs, ys, hall => by
    have hx : p x = true := hall x (by simp)
    simp only [List.cons_append, List.takeWhile_cons, hx, if_true]
    rw [takeWhile_append_all p xs ys (fun a ha => hall a (by simp [ha]))]

theorem dropWhile_append_all (p : Char → Bool) :
    ∀ (xs ys : List Char), (∀ a ∈ xs, p a = true) →
      (xs ++ ys).dropWhile p = ys.dropWhile p
  | [], ys, _ => rfl
  | x :: xs, ys, hall => by
    have hx : p x = true := hall x (by simp)
    simp only [List.cons_append, List.dropWhile_cons, hx, if_true]
    exact dropWhile_append_all p xs ys (fun a ha => hall a (by simp [ha]))

theorem matchDataUrlAt_some (s m after : List Char)
    (h : matchDataUrlAt s = some (m, after)) :
    s = m ++ after ∧ 0 < m.length := by
  unfold matchDataUrlAt at h
  split at h
  · simp at h
  · rename_i s1 h1
    simp only at h
    split_ifs at h with hrun
    split at h
    · simp at h
    · rename_i s3 h2
      split_ifs at h with hpay
      simp only [Option.some.injEq, Prod.mk.injEq] at h
      obtain ⟨hm, hafter⟩ := h
      have hs : s = dataImageTag ++ s1 := stripPre_some _ _ _ h1
      have hs2 : s1.dropWhile (fun c => !(c == ';')) = base64Tag ++ s3 :=
        stripPre_some _ _ _ h2
      constructor
      · rw [hs, ← hm, ← hafter]
        conv_lhs =>
          rw [(List.takeWhile_append_dropWhile
            (fun c => !(c == ';')) s1).symm, hs2,
            (List.takeWhile_append_dropWhile isB64UrlChar s3).symm]
        simp
      · rw [← hm]
        simp [dataImageTag]

theorem matchDataUrlAt_shrinks (s m after : List Char)
    (h : matchDataUrlAt s = some (m, after)) : after.length < s.length := by
  obtain ⟨hs, hm⟩ := matchDataUrlAt_some s m after h
  rw [hs]
  simp only [List.length_append]
  omega

theorem matchBase64At_some (s m after : List Char)
    (h : matchBase64At s = some (m, after)) :
    s = m ++ after ∧ 0 < m.length := by
  unfold matchBase64At at h
  simp only at h
  split_ifs at h with hlen
  push_neg at hlen
  have hs : s = s.takeWhile isB64BodyChar ++ s.dropWhile isB64BodyChar :=
    (List.takeWhile_append_dropWhile _ _).symm
  split at h
  · rename_i rest2 heq
    simp only [Option.some.injEq, Prod.mk.injEq] at h
    obtain ⟨hm, hafter⟩ := h
    constructor
    · rw [hs, heq, ← hm, ← hafter]; simp
    · rw [← hm]; simp only [List.length_append]; omega
  · rename_i rest2 heq
    simp only [Option.some.injEq, Prod.mk.injEq] at h
    obtain ⟨hm, hafter⟩ := h
    constructor
    · rw [hs, heq, ← hm, ← hafter]; simp
    · rw [← hm]; simp only [List.length_append]; omega
  · simp only [Option.some.injEq, Prod.mk.injEq] at h
    obtain ⟨hm, hafter⟩ := h
    constructor
    · rw [hs, ← hm, ← hafter]
    · rw [← hm]; omega

theorem matchBase64At_shrinks (s m after : List Char)
    (h : matchBase64At s = some (m, after)) : after.length < s.length := by
  obtain ⟨hs, hm⟩ := matchBase64At_some s m after h
  rw [hs]
  simp only [List.length_append]
  omega

theorem scanAll_nil (step : List Char → Option (List Char × List Char)) :
    ∀ fuel, scanAll step fuel [] = []
  | 0 => rfl
  | _ + 1 => rfl

theorem scanAll_fuel (step : List Char → Option (List Char × List Char))
    (hstep : ∀ s m after, step s = some (m, after) →
      after.length < s.length) :
    ∀ f1 s, s.length ≤ f1 → ∀ f2, s.length ≤ f2 →
      scanAll step f1 s = scanAll step f2 s := by
  intro f1
  induction f1 with
  | zero =>
    intro s hs f2 _
    have hnil : s = [] := by
      cases s with
      | nil => rfl
      | cons a l => simp at hs
    subst hnil
    rw [scanAll_nil, scanAll_nil]
  | succ f ih =>
    intro s hs f2 hs2
    cases s with
    | nil => rw [scanAll_nil, scanAll_nil]
    | cons c rest =>
      cases f2 with
      | zero => simp at hs2
      | succ f2 =>
        simp only [scanAll]
        cases hm : step (c :: rest) with
        | none =>
          simp only [List.length_cons] at hs hs2
          exact ih rest (by omega) f2 (by omega)
        | some ma =>
          obtain ⟨m, after⟩ := ma
          have hlt := hstep _ _ _ hm
          simp only [List.length_cons] at hs hs2 hlt
          show m :: scanAll step f after = m :: scanAll step f2 after
          rw [ih after (by omega) f2 (by omega)]

theorem scanAll_cons_match (step : List Char → Option (List Char × List Char))
    (hstep : ∀ s m after, step s = some (m, after) →
      after.length < s.length)
    (s m after : List Char) (hm : step s = some (m, after)) :
    scanAll step s.length s = m :: scanAll step after.length after := by
  cases s with
  | nil =>
    have := hstep _ _ _ hm
    simp at this
  | cons c rest =>
    have hlt := hstep _ _ _ hm
    simp only [List.length_cons] at hlt ⊢
    simp only [scanAll, hm]
    congr 1
    exact scanAll_fuel step hstep rest.length after (by omega) after.length
      (Nat.le_refl _)

theorem scanAll_cons_none
    (step : List Char → Option (List Char × List Char)) (c : Char)
    (rest : List Char) (hm : step (c :: rest) = none) :
    scanAll step (c :: rest).length (c :: rest) =
      scanAll step rest.length rest := by
  simp only [List.length_cons, scanAll, hm]

theorem matchDataUrlAt_none_head (c : Char) (rest : List Char)
    (hc : ¬(c = 'd')) : matchDataUrlAt (c :: rest) = none := by
  unfold matchDataUrlAt
  rw [show dataImageTag = 'd' :: "ata:image/".data from rfl]
  simp [stripPre, hc]

theorem matchBase64At_none_head (c : Char) (rest : List Char)
    (hc : isB64BodyChar c = false) : matchBase64At (c :: rest) = none := by
  simp [matchBase64At, List.takeWhile_cons, hc]

theorem extract_prefix_inert : ∀ (pre t : List Char),
    (∀ c ∈ pre, ¬(c = 'd')) →
    scanAll matchDataUrlAt (pre ++ t).length (pre ++ t) =
      scanAll matchDataUrlAt t.length t
  | [], t, _ => rfl
  | c :: pre, t, hall => by
    have hc : ¬(c = 'd') := hall c (by simp)
    simp only [List.cons_append]
    rw [scanAll_cons_none matchDataUrlAt c (pre ++ t)
      (matchDataUrlAt_none_head c (pre ++ t) hc)]
    exact extract_prefix_inert pre t (fun a ha => hall a (by simp [ha]))

theorem extract_all_inert : ∀ (s : List Char), (∀ c ∈ s, ¬(c = 'd')) →
    scanAll matchDataUrlAt s.length s = []
  | [], _ => rfl
  | c :: rest, hall => by
    rw [scanAll_cons_none matchDataUrlAt c rest
      (matchDataUrlAt_none_head c rest (hall c (by simp)))]
    exact extract_all_inert rest (fun a ha => hall a (by simp [ha]))

theorem base64_prefix_inert : ∀ (pre t : List Char),
    (∀ c ∈ pre, isB64BodyChar c = false) →
    scanAll matchBase64At (pre ++ t).length (pre ++ t) =
      scanAll matchBase64At t.length t
  | [], t, _ => rfl
  | c :: pre, t, hall => by
    have hc : isB64BodyChar c = false := hall c (by simp)
    simp only [List.cons_append]
    rw [scanAll_cons_none matchBase64At c (pre ++ t)
      (matchBase64At_none_head c (pre ++ t) hc)]
    exact base64_prefix_inert pre t (fun a ha => hall a (by simp [ha]))

theorem base64_all_inert : ∀ (s : List Char),
    (∀ c ∈ s, isB64BodyChar c = false) →
    scanAll matchBase64At s.length s = []
  | [], _ => rfl
  | c :: rest, hall => by
    rw [scanAll_cons_none matchBase64At c rest
      (matchBase64At_none_head c rest (hall c (by simp)))]
    exact base64_all_inert rest (fun a ha => hall a (by simp [ha]))

theorem takeWhile_cons_false (p : Char → Bool) (c : Char) (ys : List Char)
    (hc : p c = false) : (c :: ys).takeWhile p = [] := by
  simp [List.takeWhile_cons, hc]

theorem dropWhile_cons_false (p : Char → Bool) (c : Char) (ys : List Char)
    (hc : p c = false) : (c :: ys).dropWhile p = c :: ys := by
  simp [List.dropWhile_cons, hc]

theorem takeWhile_all (p : Char → Bool) :
    ∀ (l : List Char), (∀ a ∈ l, p a = true) → l.takeWhile p = l
  | [], _ => rfl
  | x :: xs, hall => by
    simp only [List.takeWhile_cons, hall x (by simp), if_true]
    rw [takeWhile_all p xs (fun a ha => hall a (by simp [ha]))]

theorem b64decode_chars (s : List Char) (bs : List Nat)
    (h : b64decode s = some bs) : ∀ c ∈ s, isB64UrlChar c = true := by
  obtain ⟨body, pads, hsplit, hbody, hpads, -, -⟩ := b64decode_structure s bs h
  intro c hc
  rw [hsplit] at hc
  rcases List.mem_append.mp hc with hcb | hcp
  · simp [isB64UrlChar, hbody c hcb]
  · rcases hpads with rfl | rfl | rfl
    · simp at hcp
    · simp only [List.mem_singleton] at hcp
      subst hcp
      decide
    · simp only [List.mem_cons, List.not_mem_nil, or_false] at hcp
      rcases hcp with rfl | rfl <;> decide

theorem isB64UrlChar_ne_comma (c : Char) (h : isB64UrlChar c = true) :
    ¬(c = ',') := by
  intro hc
  subst hc
  exact absurd h (by decide)

theorem isB64UrlChar_ne_semi (c : Char) (h : isB64UrlChar c = true) :
    ¬(c = ';') := by
  intro hc
  subst hc
  exact absurd h (by decide)

theorem matchDataUrlAt_at_url (mediaRest payload post : List Char)
    (hm1 : mediaRest ≠ [])
    (hm2 : ∀ c ∈ mediaRest, ¬(c = ';'))
    (hp1 : payload ≠ [])
    (hp2 : ∀ c ∈ payload, isB64UrlChar c = true)
    (hpost : ∀ c, post.head? = some c → isB64UrlChar c = false) :
    matchDataUrlAt
        (dataImageTag ++ (mediaRest ++ (base64Tag ++ (payload ++ post)))) =
      some (dataImageTag ++ mediaRest ++ base64Tag ++ payload, post) := by
  have hm2' : ∀ c ∈ mediaRest, (!(c == ';')) = true := by
    intro c hc
    simp [hm2 c hc]
  have hp2' : ∀ c ∈ payload, isB64UrlChar c = true := hp2
  have htw1 : (mediaRest ++ (base64Tag ++ (payload ++ post))).takeWhile
      (fun c => !(c == ';')) = mediaRest := by
    rw [takeWhile_append_all _ _ _ hm2']
    rw [show base64Tag ++ (payload ++ post) =
      ';' :: ("base64,".data ++ (payload ++ post)) from rfl]
    simp [List.takeWhile_cons]
  have hdw1 : (mediaRest ++ (base64Tag ++ (payload ++ post))).dropWhile
      (fun c => !(c == ';')) = base64Tag ++ (payload ++ post) := by
    rw [dropWhile_append_all _ _ _ hm2']
    rw [show base64Tag ++ (payload ++ post) =
      ';' :: ("base64,".data ++ (payload ++ post)) from rfl]
    simp [List.dropWhile_cons]
  have htw2 : (payload ++ post).takeWhile isB64UrlChar = payload := by
    rw [takeWhile_append_all _ _ _ hp2']
    cases post with
    | nil => simp
    | cons d ds =>
      rw [takeWhile_cons_false isB64UrlChar d ds (hpost d rfl)]
      simp
  have hdw2 : (payload ++ post).dropWhile isB64UrlChar = post := by
    rw [dropWhile_append_all _ _ _ hp2']
    cases post with
    | nil => simp
    | cons d ds =>
      rw [dropWhile_cons_false isB64UrlChar d ds (hpost d rfl)]
  unfold matchDataUrlAt
  rw [stripPre_append]
  simp only [htw1, hdw1]
  rw [if_neg (by simpa [List.isEmpty_iff] using hm1)]
  rw [stripPre_append]
  simp only [htw2, hdw2]
  rw [if_neg (by simpa [List.isEmpty_iff] using hp1)]

theorem matchBase64At_at_str (body pads post : List Char)
    (hbody : ∀ c ∈ body, isB64BodyChar c = true)
    (hlen : 100 ≤ body.length)
    (hpads : pads = [] ∨ pads = ['='] ∨ pads = ['=', '='])
    (hpost : ∀ c ∈ post, isB64BodyChar c = false ∧ ¬(c = '=')) :
    matchBase64At (body ++ (pads ++ post)) = some (body ++ pads, post) := by
  have htw : (body ++ (pads ++ post)).takeWhile isB64BodyChar = body := by
    rw [takeWhile_append_all _ _ _ hbody]
    rcases hpads with rfl | rfl | rfl
    · simp only [List.nil_append]
      cases post with
      | nil => simp
      | cons d ds =>
        rw [takeWhile_cons_false _ _ _ (hpost d (by simp)).1]
        simp
    · rw [show (['='] : List Char) ++ post = '=' :: post from rfl,
        takeWhile_cons_false _ _ _ (by decide)]
      simp
    · rw [show (['=', '='] : List Char) ++ post = '=' :: '=' :: post
        from rfl, takeWhile_cons_false _ _ _ (by decide)]
      simp
  have hdw : (body ++ (pads ++ post)).dropWhile isB64BodyChar =
      pads ++ post := by
    rw [dropWhile_append_all _ _ _ hbody]
    rcases hpads with rfl | rfl | rfl
    · simp only [List.nil_append]
      cases post with
      | nil => simp
      | cons d ds => rw [dropWhile_cons_false _ _ _ (hpost d (by simp)).1]
    · rw [show (['='] : List Char) ++ post = '=' :: post from rfl,
        dropWhile_cons_false _ _ _ (by decide)]
    · rw [show (['=', '='] : List Char) ++ post = '=' :: '=' :: post
        from rfl, dropWhile_cons_false _ _ _ (by decide)]
  unfold matchBase64At
  simp only [htw, hdw]
  rw [if_neg (by omega)]
  rcases hpads with rfl | rfl | rfl
  · simp only [List.nil_append, List.append_nil]
    cases post with
    | nil => rfl
    | cons d ds =>
      have hd := (hpost d (by simp)).2
      split
      · rename_i rest2 heq
        simp only [List.cons.injEq] at heq
        exact absurd heq.1 hd
      · rename_i rest2 heq
        simp only [List.cons.injEq] at heq
        exact absurd heq.1 hd
      · rfl
  · cases post with
    | nil => rfl
    | cons d ds =>
      have hd := (hpost d (by simp)).2
      split
      · rename_i rest2 heq
        simp only [List.cons_append, List.nil_append,
          List.cons.injEq] at heq
        exact absurd heq.2.1 hd
      · rename_i rest2 heq
        simp only [List.cons_append, List.nil_append,
          List.cons.injEq] at heq
        rw [heq.2]
      · rename_i hne1 hne2
        exact absurd rfl (hne2 (d :: ds))
  · rfl

theorem save_data_url_on_url (mediaRest payload : List Char)
    (bytes : List Nat) (hmcomma : ',' ∉ mediaRest)
    (hdec : b64decode payload = some bytes) :
    save_data_url_image (dataImageTag ++ mediaRest ++ base64Tag ++ payload) =
      some bytes := by
  have hassoc : dataImageTag ++ mediaRest ++ base64Tag ++ payload =
      (dataImageTag ++ (mediaRest ++ [';', 'b', 'a', 's', 'e', '6', '4'])) ++
        (',' :: payload) := by
    rw [show base64Tag = [';', 'b', 'a', 's', 'e', '6', '4'] ++ [',']
      from rfl]
    simp [List.append_assoc]
  have hd1 : ∀ c ∈ dataImageTag, (!(c == ',')) = true := by decide
  have hd2 : ∀ c ∈ ([';', 'b', 'a', 's', 'e', '6', '4'] : List Char),
      (!(c == ',')) = true := by decide
  have hall : ∀ c ∈ dataImageTag ++
      (mediaRest ++ [';', 'b', 'a', 's', 'e', '6', '4']),
      (!(c == ',')) = true := by
    intro c hc
    rcases List.mem_append.mp hc with h1 | h2
    · exact hd1 c h1
    · rcases List.mem_append.mp h2 with h3 | h4
      · have : ¬(c = ',') := fun he => hmcomma (he ▸ h3)
        simp [this]
      · exact hd2 c h4
  have hmem : ',' ∈ dataImageTag ++ mediaRest ++ base64Tag ++ payload := by
    rw [hassoc]
    simp
  unfold save_data_url_image
  rw [if_pos hmem, hassoc]
  rw [dropWhile_append_all _ _ _ hall,
    dropWhile_cons_false _ _ _ (by decide)]
  simp only [List.drop_succ_cons, List.drop_zero]
  rw [takeWhile_all _ _ (fun c hc => by
    simp [isB64UrlChar_ne_comma c (b64decode_chars payload bytes hdec c hc)])]
  exact hdec

theorem scanAll_mem (step : List Char → Option (List Char × List Char)) :
    ∀ (fuel : Nat) (s m : List Char), m ∈ scanAll step fuel s →
      ∃ u after, step u = some (m, after)
  | 0, s, m, h => by simp [scanAll] at h
  | fuel + 1, [], m, h => by simp [scanAll] at h
  | fuel + 1, c :: rest, m, h => by
    simp only [scanAll] at h
    cases hm : step (c :: rest) with
    | none =>
      rw [hm] at h
      exact scanAll_mem step fuel rest m h
    | some ma =>
      obtain ⟨m', after⟩ := ma
      rw [hm] at h
      simp only [List.mem_cons] at h
      rcases h with rfl | h
      · exact ⟨c :: rest, after, hm⟩
      · exact scanAll_mem step fuel after m h

theorem matchDataUrlAt_shape (u m after : List Char)
    (h : matchDataUrlAt u = some (m, after)) :
    ∃ run payld, m = dataImageTag ++ run ++ base64Tag ++ payld ∧
      run ≠ [] ∧ (∀ c ∈ run, ¬(c = ';')) ∧ payld ≠ [] ∧
      (∀ c ∈ payld, isB64UrlChar c = true) := by
  unfold matchDataUrlAt at h
  split at h
  · simp at h
  · rename_i s1 h1
    simp only at h
    split_ifs at h with hrun
    split at h
    · simp at h
    · rename_i s3 h2
      split_ifs at h with hpay
      simp only [Option.some.injEq, Prod.mk.injEq] at h
      obtain ⟨hm, hafter⟩ := h
      refine ⟨s1.takeWhile (fun c => !(c == ';')), s3.takeWhile isB64UrlChar,
        hm.symm, ?_, ?_, ?_, ?_⟩
      · simpa [List.isEmpty_iff] using hrun
      · intro c hc
        have := List.mem_takeWhile_imp hc
        simpa using this
      · simpa [List.isEmpty_iff] using hpay
      · intro c hc
        exact List.mem_takeWhile_imp hc

/-- C8 (amended): the extractor matches only IMAGE data URLs
(`data:image/<rest>;base64,<payload>`), not the general
`data:<mediatype>;base64,` pattern.  For a payload that is canonical
base64 of `bytes`, an image data URL embedded in inert surroundings
yields exactly one match and exactly one saved blob, equal to the base64
decoding of the segment after the first comma; and every match the scan
ever produces has the image data-URL shape. -/
theorem c8_amended_image_data_url_extraction
    (pre mediaRest payload post : List Char) (bytes : List Nat)
    (hpre : ∀ c ∈ pre, ¬(c = 'd'))
    (hpostd : ∀ c ∈ post, ¬(c = 'd'))
    (hposthead : ∀ c ∈ post.take 1, isB64UrlChar c = false)
    (hm1 : mediaRest ≠ []) (hmsemi : ';' ∉ mediaRest)
    (hmcomma : ',' ∉ mediaRest)
    (hp1 : payload ≠ []) (hdec : b64decode payload = some bytes) :
    extract_image_urls (pre ++ (dataImageTag ++ (mediaRest ++
        (base64Tag ++ (payload ++ post))))) =
      [dataImageTag ++ mediaRest ++ base64Tag ++ payload] ∧
    process_response_media (pre ++ (dataImageTag ++ (mediaRest ++
        (base64Tag ++ (payload ++ post))))) = [bytes] ∧
    (∀ (s m : List Char), m ∈ extract_image_urls s →
      ∃ run payld, m = dataImageTag ++ run ++ base64Tag ++ payld ∧
        run ≠ [] ∧ payld ≠ []) := by
  have hp2 := b64decode_chars payload bytes hdec
  have hm2 : ∀ c ∈ mediaRest, ¬(c = ';') := fun c hc he => hmsemi (he ▸ hc)
  have hph : ∀ c, post.head? = some c → isB64UrlChar c = false := by
    intro c hc
    cases post with
    | nil => simp at hc
    | cons d ds =>
      simp only [List.head?_cons, Option.some.injEq] at hc
      rw [← hc]
      exact hposthead d (by simp)
  have hmatch := matchDataUrlAt_at_url mediaRest payload post hm1 hm2 hp1
    hp2 hph
  have hext : extract_image_urls (pre ++ (dataImageTag ++ (mediaRest ++
      (base64Tag ++ (payload ++ post))))) =
      [dataImageTag ++ mediaRest ++ base64Tag ++ payload] := by
    unfold extract_image_urls
    rw [extract_prefix_inert pre _ hpre]
    rw [scanAll_cons_match matchDataUrlAt matchDataUrlAt_shrinks _ _ _
      hmatch]
    rw [extract_all_inert post hpostd]
  refine ⟨hext, ?_, ?_⟩
  · have hsave : save_data_url_image (dataImageTag ++ (mediaRest ++
        (base64Tag ++ payload))) = some bytes := by
      rw [show dataImageTag ++ (mediaRest ++ (base64Tag ++ payload)) =
        dataImageTag ++ mediaRest ++ base64Tag ++ payload from by
          simp [List.append_assoc]]
      exact save_data_url_on_url mediaRest payload bytes hmcomma hdec
    unfold process_response_media
    rw [hext]
    simp [hsave]
  · intro s m hm
    obtain ⟨u, after, hu⟩ := scanAll_mem matchDataUrlAt s.length s m hm
    obtain ⟨run, payld, hshape, hrun, -, hpayld, -⟩ :=
      matchDataUrlAt_shape u m after hu
    exact ⟨run, payld, hshape, hrun, hpayld⟩

/-- C9 (amended): when no data-URL match is found, a standalone
base64-alphabet string longer than 100 characters (in surroundings inert
to the fallback scan) is captured as media iff it decodes to STRICTLY
MORE than 1000 bytes — a decode of exactly 1000 bytes is not captured —
and the fallback processes at most the first three candidate matches, so
the saved list never exceeds 3 entries. -/
theorem c9_amended_standalone_base64_threshold
    (pre b64str post : List Char) (bytes : List Nat)
    (hpre : ∀ c ∈ pre, isB64BodyChar c = false)
    (hpost : ∀ c ∈ post, isB64BodyChar c = false ∧ ¬(c = '='))
    (hlen : 100 < b64str.length)
    (hdec : b64decode b64str = some bytes)
    (hnourl : extract_image_urls (pre ++ (b64str ++ post)) = []) :
    process_response_media (pre ++ (b64str ++ post)) =
      (if 1000 < bytes.length then [bytes] else []) ∧
    (∀ s : List Char, extract_image_urls s = [] →
      (process_response_media s).length ≤ 3) := by
  constructor
  · obtain ⟨body, pads, hsplit, hbody, hpads, hmod, hsize⟩ :=
      b64decode_structure b64str bytes hdec
    have hpadlen : pads.length ≤ 2 := by
      rcases hpads with rfl | rfl | rfl <;> simp
    have hstrlen : b64str.length = body.length + pads.length := by
      rw [hsplit]; simp
    have hbodylen : 100 ≤ body.length := by omega
    have hmatch := matchBase64At_at_str body pads post hbody hbodylen
      hpads hpost
    have hfind : findAllBase64 (pre ++ (b64str ++ post)) = [b64str] := by
      unfold findAllBase64
      rw [base64_prefix_inert pre _ hpre]
      rw [show b64str ++ post = body ++ (pads ++ post) from by
        rw [hsplit, List.append_assoc]]
      rw [scanAll_cons_match matchBase64At matchBase64At_shrinks _ _ _
        hmatch]
      rw [base64_all_inert post (fun c hc => (hpost c hc).1)]
      rw [← hsplit]
    unfold process_response_media
    rw [hnourl, hfind]
    by_cases hb : 1000 < bytes.length
    · rw [if_pos hb]
      simp [fallbackDecode, hdec, hb]
    · rw [if_neg hb]
      simp [fallbackDecode, hdec, hb]
  · intro s hs
    unfold process_response_media
    rw [hs]
    simp only [List.isEmpty_nil, if_true]
    calc (((findAllBase64 s).take 3).filterMap fallbackDecode).length
        ≤ ((findAllBase64 s).take 3).length := List.length_filterMap_le _ _
      _ ≤ 3 := List.length_take_le _ _

/-- C8 (counterexample): a data URL with a non-image mediatype
(`data:text/plain;base64,QUJD`, whose payload decodes to 3 bytes) matches
the spec's general data-URL pattern, yet the extractor — whose regex
requires `data:image/` — finds no match and saves nothing, so the claim
as stated (one entry per general data-URL match) is false. -/
theorem c8_counterexample :
    ("data:text/plain;base64,QUJD".data =
      "data:".data ++ "text/plain".data ++ ";base64,".data ++
        "QUJD".data) ∧
      b64decode "QUJD".data = some [65, 66, 67] ∧
      extract_image_urls "data:text/plain;base64,QUJD".data = [] ∧
      process_response_media "data:text/plain;base64,QUJD".data = [] := by
  decide

theorem c8_witness :
    b64decode "QUJD".data = some [65, 66, 67] ∧
      extract_image_urls ("pic=\"".data ++ (dataImageTag ++ ("png".data ++
        (base64Tag ++ ("QUJD".data ++ "\"]".data))))) =
        [dataImageTag ++ "png".data ++ base64Tag ++ "QUJD".data] ∧
      process_response_media ("pic=\"".data ++ (dataImageTag ++
        ("png".data ++ (base64Tag ++ ("QUJD".data ++ "\"]".data))))) =
        [[65, 66, 67]] := by
  refine ⟨by decide, ?_, ?_⟩
  · exact (c8_amended_image_data_url_extraction "pic=\"".data "png".data
      "QUJD".data "\"]".data [65, 66, 67] (by decide) (by decide)
      (by decide) (by decide) (by decide) (by decide) (by decide)
      (by decide)).1
  · exact (c8_amended_image_data_url_extraction "pic=\"".data "png".data
      "QUJD".data "\"]".data [65, 66, 67] (by decide) (by decide)
      (by decide) (by decide) (by decide) (by decide) (by decide)
      (by decide)).2.1

set_option maxRecDepth 40000 in
/-- C9 (counterexample): a standalone base64 string of 1336 characters
(1334 `A`s and two pads) decodes successfully to EXACTLY 1000 bytes — at
least 1000, as the claim requires for capture — yet the fallback saves
nothing, because the code keeps a blob only when its size is strictly
greater than 1000. -/
theorem c9_counterexample :
    (List.replicate 1334 'A' ++ ['=', '='] : List Char).length = 1336 ∧
      b64decode (List.replicate 1334 'A' ++ ['=', '=']) =
        some (List.replicate 1000 0) ∧
      (List.replicate 1000 (0 : Nat)).length = 1000 ∧
      extract_image_urls (List.replicate 1334 'A' ++ ['=', '=']) = [] ∧
      process_response_media (List.replicate 1334 'A' ++ ['=', '=']) =
        [] := by
  decide

set_option maxRecDepth 40000 in
theorem c9_witness :
    b64decode (List.replicate 104 'A') = some (List.replicate 78 0) ∧
      100 < (List.replicate 104 'A' : List Char).length ∧
      extract_image_urls (([] : List Char) ++
        (List.replicate 104 'A' ++ [])) = [] ∧
      process_response_media (([] : List Char) ++
        (List.replicate 104 'A' ++ [])) =
        (if 1000 < (List.replicate 78 (0 : Nat)).length then
          [List.replicate 78 0] else []) ∧
      (process_response_media "no base sixtyfour here".data).length ≤ 3 := by
  refine ⟨by decide, by decide, by decide, ?_, ?_⟩
  · exact (c9_amended_standalone_base64_threshold [] (List.replicate 104 'A')
      [] (List.replicate 78 0) (by decide) (by decide) (by decide)
      (by decide) (by decide)).1
  · exact (c9_amended_standalone_base64_threshold [] (List.replicate 104 'A')
      [] (List.replicate 78 0) (by decide) (by decide) (by decide)
      (by decide) (by decide)).2 "no base sixtyfour here".data (by decide)

end MCP
